import Mathlib

/-!
Shallow embedding of the NodeBB postgres hash adapter
(`src/database/postgres/hash.js`).

A key maps to a JSONB document (field name to JSON value).  The store
consists of two tables: `legacy_object_live` (the type registry, one live
row `(_key, type)` per key) and `legacy_hash` (one row `(_key, data)` per
key; its `type` column is the constant `'hash'`).  JSONB documents are
modelled as association lists of `(field, value)` pairs; JSON numbers are
restricted to integers, which covers every numeric value the adapter
itself writes (increments go through `parseInt`).
-/

namespace PgHash

/-- A JSON value as stored in a JSONB document. -/
inductive JVal : Type
  | null : JVal
  | num : Int → JVal
  | str : String → JVal
  | bool : Bool → JVal
deriving DecidableEq, Repr

/-- A JSONB document: an association list of field name / value pairs. -/
abbrev Doc : Type := List (String × JVal)

/-- First binding of a key in an association list (SQL lookup of the
unique row with that key; rows are unique by construction). -/
def lookupAssoc {α : Type} (l : List (String × α)) (k : String) : Option α :=
  match l with
  | [] => none
  | p :: rest => if p.1 = k then some p.2 else lookupAssoc rest k

/-- Replace the value bound to `k` (models an SQL `UPDATE` of the row). -/
def setAssoc {α : Type} (l : List (String × α)) (k : String) (v : α) : List (String × α) :=
  l.map (fun p => if p.1 = k then (k, v) else p)

/-- `data ? field` / `hasOwnProperty`: is the field present in the document? -/
def docHasKey (d : Doc) (f : String) : Bool :=
  match d with
  | [] => false
  | p :: rest => if p.1 = f then true else docHasKey rest f

/-- `data -> field` as an `Option`: the field's JSON value if present. -/
def docLookup (d : Doc) (f : String) : Option JVal :=
  lookupAssoc d f

/-- `delete data['']` guarded by `hasOwnProperty('')`, as in `setObject`. -/
def stripEmptyField (d : Doc) : Doc :=
  if docHasKey d "" then d.filter (fun p => p.1 ≠ "") else d

/-- JSONB concatenation `old || new`: keys of both, right operand wins. -/
def docConcat (old new : Doc) : Doc :=
  old.filter (fun p => !(docHasKey new p.1)) ++ new

/-- `jsonb_set(d, ARRAY[f], v)` with the default `create_missing = true`:
replace the field if present, append it otherwise. -/
def jsonbSet (d : Doc) (f : String) (v : JVal) : Doc :=
  if docHasKey d f then setAssoc d f v else d ++ [(f, v)]

/-- Errors surfaced by the store. -/
inductive DBErr : Type
  | typeConflict : DBErr
  | castError : DBErr
  | cardinalityViolation : DBErr
deriving DecidableEq, Repr

/-- The persisted state: the live type registry (`legacy_object_live`)
and the hash table (`legacy_hash`, whose `type` column is always
`'hash'`). -/
structure DB : Type where
  live : List (String × String)
  hash : List (String × Doc)
deriving DecidableEq, Repr

/-- Modelled from the spec: the registry collaborator
`ensureLegacyObjectType` (not under `src/`) — `ensureType(key, type)`
creates the type registration lazily if the key has none, succeeds if the
key is already registered with the same type, and signals `TypeConflict`
if the key is registered under a different type. -/
def ensureLegacyObjectType (db : DB) (key ty : String) : Except DBErr DB :=
  match lookupAssoc db.live key with
  | none => .ok { db with live := (key, ty) :: db.live }
  | some t => if t = ty then .ok db else .error .typeConflict

/-- Modelled from the spec: the batch registry assertion
`ensureLegacyObjectsType` — `assertBatch(keys, type)`, asserting the type
for every key in turn. -/
def ensureLegacyObjectsType (db : DB) (keys : List String) (ty : String) : Except DBErr DB :=
  match keys with
  | [] => .ok db
  | k :: rest =>
    match ensureLegacyObjectType db k ty with
    | .error e => .error e
    | .ok db2 => ensureLegacyObjectsType db2 rest ty

/-- The read-side join used by every read:
`legacy_object_live o INNER JOIN legacy_hash h ON o._key = h._key AND
o.type = h.type` for a given key (`h.type` is constantly `'hash'`). -/
def liveHashDoc (db : DB) (key : String) : Option Doc :=
  match lookupAssoc db.live key with
  | some t => if t = "hash" then lookupAssoc db.hash key else none
  | none => none

/-- `INSERT ... ON CONFLICT ("_key") DO UPDATE` against `legacy_hash`. -/
def hashUpsert (h : List (String × Doc)) (key : String) (ifAbsent : Doc)
    (ifPresent : Doc → Doc) : List (String × Doc) :=
  match lookupAssoc h key with
  | none => h ++ [(key, ifAbsent)]
  | some d => setAssoc h key (ifPresent d)

/-- `setObject(key, data)`: no-op on an empty key; strips a field
literally named `""` from the caller's object in place; ensures the
`hash` registration inside the transaction; upserts
`data = legacy_hash.data || $2` (shallow merge, input wins).  The second
component of the result is the caller's own object after the call (the
in-place mutation). -/
def setObject (db : DB) (key : String) (data : Doc) : Except DBErr DB × Doc :=
  if key = "" then (.ok db, data)
  else
    let data2 := stripEmptyField data
    match ensureLegacyObjectType db key "hash" with
    | .error e => (.error e, data2)
    | .ok db2 =>
      (.ok { db2 with
              hash := hashUpsert db2.hash key data2 (fun old => docConcat old data2) },
       data2)

/-- `setObjectField(key, field, value)`: no-op only when `field` is empty
(there is no guard on `key`); ensures the registration, then upserts
`jsonb_build_object(f, v)` / `jsonb_set(data, ARRAY[f], v)`. -/
def setObjectField (db : DB) (key field : String) (value : JVal) : Except DBErr DB :=
  if field = "" then .ok db
  else
    match ensureLegacyObjectType db key "hash" with
    | .error e => .error e
    | .ok db2 =>
      .ok { db2 with
             hash := hashUpsert db2.hash key [(field, value)]
                       (fun old => jsonbSet old field value) }

/-- `getObject(key)`: `null` on an empty key, otherwise the row of the
registry join, or `null` when there is none. -/
def getObject (db : DB) (key : String) : Option Doc :=
  if key = "" then none else liveHashDoc db key

/-- Tag a list with 1-based ordinality (`UNNEST(..) WITH ORDINALITY`). -/
def tagFrom {α : Type} (i : Nat) (l : List α) : List (Nat × α) :=
  match l with
  | [] => []
  | a :: rest => (i, a) :: tagFrom (i + 1) rest

/-- Insertion into a tag-sorted list, for `ORDER BY k.i ASC`. -/
def insertByTag {α : Type} (p : Nat × α) (l : List (Nat × α)) : List (Nat × α) :=
  match l with
  | [] => [p]
  | q :: rest => if p.1 ≤ q.1 then p :: q :: rest else q :: insertByTag p rest

/-- Sort rows by their ordinality tag (`ORDER BY k.i ASC`). -/
def sortByTag {α : Type} (l : List (Nat × α)) : List (Nat × α) :=
  match l with
  | [] => []
  | p :: rest => insertByTag p (sortByTag rest)

/-- `getObjects(keys)`: tag every key with its input position, left-join
each tagged key through the registry to its document (`NULL` data when the
joins miss), order by the tag, and project the data column. -/
def getObjects (db : DB) (keys : List String) : List (Option Doc) :=
  (sortByTag ((tagFrom 1 keys).map (fun p => (p.1, liveHashDoc db p.2)))).map
    (fun p => p.2)

/-- The aggregated projection of `getObjectFields`: for each requested
field (from `UNNEST(fields)`), left-join against `jsonb_each(data)`; a
miss contributes a JSON `null` to `jsonb_object_agg`. -/
def aggFields (fields : List String) (d : Doc) : Doc :=
  fields.map (fun f =>
    (f, match docLookup d f with
        | some v => v
        | none => JVal.null))

/-- `getObjectFields(key, fields)`: `null` on an empty key.  When the
registry join yields a row, the aggregated projection — except that
`jsonb_object_agg` over zero rows is SQL `NULL`, so an empty `fields`
list yields `null`.  When the join yields no row, an object mapping every
requested field to `null`, built in application code. -/
def getObjectFields (db : DB) (key : String) (fields : List String) : Option Doc :=
  if key = "" then none
  else
    match liveHashDoc db key with
    | some d => if fields.isEmpty then none else some (aggFields fields d)
    | none => some (aggFields fields [])

/-- `getObjectKeys(key)`: `undefined` (here `none`) on an empty key;
otherwise the array of the document's field names, or `[]` when the
registry join yields no row. -/
def getObjectKeys (db : DB) (key : String) : Option (List String) :=
  if key = "" then none
  else
    match liveHashDoc db key with
    | some d => some (d.map (fun p => p.1))
    | none => some []

/-- `data ->> field IS NULL`: SQL `NULL` when the field is absent or its
JSON value is `null`. -/
def jvalTextIsNull (v : Option JVal) : Bool :=
  match v with
  | none => true
  | some .null => true
  | some _ => false

/-- `isObjectField(key, field)`: `undefined` (here `none`) on an empty
key; otherwise the boolean `(data ? f AND data ->> f IS NOT NULL)`, or
`false` when the registry join yields no row. -/
def isObjectField (db : DB) (key field : String) : Option Bool :=
  if key = "" then none
  else
    match liveHashDoc db key with
    | some d => some (docHasKey d field && !(jvalTextIsNull (docLookup d field)))
    | none => some false

/-- `isObjectFields(key, fields)`: `undefined` (here `none`) on an empty
key; otherwise maps each requested field over the `getObjectFields`
result with `data.hasOwnProperty(field) && data[field] !== null`, and
yields all-`false` when that result is `null`. -/
def isObjectFields (db : DB) (key : String) (fields : List String) : Option (List Bool) :=
  if key = "" then none
  else
    match getObjectFields db key fields with
    | none => some (fields.map (fun _ => false))
    | some data =>
      some (fields.map (fun f =>
        docHasKey data f && !(decide (docLookup data f = some JVal.null))))

/-- `deleteObjectFields(key, fields)`: no-op when `key` is empty or
`fields` is empty; otherwise `UPDATE legacy_hash SET data =
COALESCE(jsonb_object_agg of the pairs whose key is not in fields, '\x7b\x7d')`
for the key's row (no row touched when the key has none). -/
def deleteObjectFields (db : DB) (key : String) (fields : List String) : DB :=
  if key = "" ∨ fields = [] then db
  else
    match lookupAssoc db.hash key with
    | none => db
    | some d =>
      { db with hash := setAssoc db.hash key (d.filter (fun p => decide (p.1 ∉ fields))) }

/-- `(data ->> field)::NUMERIC` as an `Option Int`: SQL `NULL` when the
field is absent or JSON `null`; a cast error when the text form of the
value is not numeric. -/
def fieldNumeric (d : Doc) (f : String) : Except DBErr (Option Int) :=
  match docLookup d f with
  | none => .ok none
  | some .null => .ok none
  | some (.num n) => .ok (some n)
  | some (.str s) =>
    match s.toInt? with
    | some n => .ok (some n)
    | none => .error .castError
  | some (.bool _) => .error .castError

/-- `incrObjectFieldBy(key, field, value)` for a scalar key.  The `value`
argument is the result of `parseInt`, `none` standing for `NaN`: the call
is a no-op returning `null` when the key is empty or the delta is not
numeric.  Otherwise it ensures the registration and runs the single
upsert whose `ON CONFLICT` branch computes
`COALESCE((data ->> f)::NUMERIC, 0) + delta` from the row being written,
returning the new value. -/
def incrObjectFieldBy (db : DB) (key field : String) (value : Option Int) :
    Except DBErr (DB × Option Int) :=
  match value with
  | none => .ok (db, none)
  | some delta =>
    if key = "" then .ok (db, none)
    else
      match ensureLegacyObjectType db key "hash" with
      | .error e => .error e
      | .ok db2 =>
        match lookupAssoc db2.hash key with
        | none =>
          .ok ({ db2 with hash := db2.hash ++ [(key, [(field, .num delta)])] },
               some delta)
        | some d =>
          match fieldNumeric d field with
          | .error e => .error e
          | .ok cur =>
            let nv := cur.getD 0 + delta
            .ok ({ db2 with hash := setAssoc db2.hash key (jsonbSet d field (.num nv)) },
                 some nv)

/-- The row-by-row effect of the multi-key upsert
`INSERT ... SELECT UNNEST(keys) ... ON CONFLICT DO UPDATE ... RETURNING`:
keys are processed in input order and the returned values accumulate in
that order; a key whose row was already affected earlier in the same
statement raises the `ON CONFLICT DO UPDATE command cannot affect row a
second time` error. -/
def incrMultiRows (db : DB) (keys : List String) (field : String) (delta : Int)
    (affected : List String) : Except DBErr (DB × List Int) :=
  match keys with
  | [] => .ok (db, [])
  | k :: rest =>
    if k ∈ affected then .error .cardinalityViolation
    else
      match lookupAssoc db.hash k with
      | none =>
        let db2 : DB := { db with hash := db.hash ++ [(k, [(field, .num delta)])] }
        match incrMultiRows db2 rest field delta (k :: affected) with
        | .error e => .error e
        | .ok (db3, vs) => .ok (db3, delta :: vs)
      | some d =>
        match fieldNumeric d field with
        | .error e => .error e
        | .ok cur =>
          let nv := cur.getD 0 + delta
          let db2 : DB := { db with hash := setAssoc db.hash k (jsonbSet d field (.num nv)) }
          match incrMultiRows db2 rest field delta (k :: affected) with
          | .error e => .error e
          | .ok (db3, vs) => .ok (db3, nv :: vs)

/-- `incrObjectFieldBy(keys, field, value)` for an array of keys (an
array is always truthy, so only a non-numeric delta short-circuits):
batch-ensures the registrations, then runs the single multi-key upsert. -/
def incrObjectFieldByMulti (db : DB) (keys : List String) (field : String)
    (value : Option Int) : Except DBErr (DB × Option (List Int)) :=
  match value with
  | none => .ok (db, none)
  | some delta =>
    match ensureLegacyObjectsType db keys "hash" with
    | .error e => .error e
    | .ok db2 =>
      match incrMultiRows db2 keys field delta [] with
      | .error e => .error e
      | .ok (db3, vs) => .ok (db3, some vs)

/-- The committed numeric reading of a key's field:
`COALESCE((data ->> f)::NUMERIC, 0)` of the key's `legacy_hash` row,
`0` when the key has no row. -/
def prevNumeric (db : DB) (key field : String) : Except DBErr (Option Int) :=
  match lookupAssoc db.hash key with
  | none => .ok none
  | some d => fieldNumeric d field

/-- The base an increment starts from: the field's previous numeric value,
`0` when the key has no row or the field is absent or `null`. -/
def prevBase (db : DB) (key field : String) : Int :=
  match prevNumeric db key field with
  | .ok (some m) => m
  | _ => 0

/-- `n` successive `incrObjectFieldBy(key, field, 1)` calls — the
sequential composition that any schedule of `n` concurrent calls
amounts to, each call being a single atomic statement. -/
def incrNTimes (db : DB) (key field : String) (n : Nat) : Except DBErr DB :=
  match n with
  | 0 => .ok db
  | m + 1 =>
    match incrNTimes db key field m with
    | .error e => .error e
    | .ok db2 =>
      match incrObjectFieldBy db2 key field (some 1) with
      | .error e => .error e
      | .ok (db3, _) => .ok db3

/-- The registry state under which a `hash` write can succeed: the key is
either unregistered or already registered as `hash`. -/
def regOk (db : DB) (key : String) : Prop :=
  lookupAssoc db.live key = none ∨ lookupAssoc db.live key = some "hash"

/-- The claim-side presence predicate: the field is present in the
document and its value is not JSON `null`. -/
def presentAndNotNull (d : Doc) (f : String) : Bool :=
  match docLookup d f with
  | some .null => false
  | some _ => true
  | none => false

/-! ### Association-list lemmas -/

theorem lookupAssoc_append {α : Type} (l1 l2 : List (String × α)) (k : String) :
    lookupAssoc (l1 ++ l2) k =
      match lookupAssoc l1 k with
      | some v => some v
      | none => lookupAssoc l2 k := by
  induction l1 with
  | nil => simp [lookupAssoc]
  | cons p rest ih =>
    by_cases h : p.1 = k
    · simp [lookupAssoc, h]
    · simp [lookupAssoc, h, ih]

theorem lookupAssoc_setAssoc_ne {α : Type} (l : List (String × α)) (k k2 : String)
    (v : α) (h : k2 ≠ k) : lookupAssoc (setAssoc l k v) k2 = lookupAssoc l k2 := by
  induction l with
  | nil => simp [setAssoc, lookupAssoc]
  | cons p rest ih =>
    by_cases hp : p.1 = k
    · simp [setAssoc, lookupAssoc, hp, Ne.symm h, h] at ih ⊢
      exact ih
    · by_cases hk : p.1 = k2
      · simp [setAssoc, lookupAssoc, hp, hk, h]
      · simp [setAssoc, lookupAssoc, hp, hk, h] at ih ⊢
        exact ih

theorem lookupAssoc_setAssoc_self {α : Type} (l : List (String × α)) (k : String)
    (v d : α) (h : lookupAssoc l k = some d) :
    lookupAssoc (setAssoc l k v) k = some v := by
  induction l with
  | nil => simp [lookupAssoc] at h
  | cons p rest ih =>
    by_cases hp : p.1 = k
    · simp [setAssoc, lookupAssoc, hp]
    · simp [lookupAssoc, hp] at h
      simp [setAssoc, lookupAssoc, hp]
      exact ih h

theorem docHasKey_eq_isSome (d : Doc) (f : String) :
    docHasKey d f = (docLookup d f).isSome := by
  induction d with
  | nil => simp [docHasKey, docLookup, lookupAssoc]
  | cons p rest ih =>
    by_cases h : p.1 = f
    · simp [docHasKey, docLookup, lookupAssoc, h]
    · simp [docHasKey, docLookup, lookupAssoc, h] at ih ⊢
      exact ih

theorem docLookup_filter (d : Doc) (q : String → Bool) (f : String) :
    docLookup (d.filter (fun p => q p.1)) f =
      if q f then docLookup d f else none := by
  simp only [docLookup]
  induction d with
  | nil => simp [lookupAssoc]
  | cons p rest ih =>
    by_cases hf : p.1 = f
    · subst hf
      by_cases hq : q p.1
      · simp [List.filter_cons, lookupAssoc, hq]
      · simp [List.filter_cons, hq, ih]
    · by_cases hq : q p.1
      · simp [List.filter_cons, hq, lookupAssoc, hf, ih]
      · simp [List.filter_cons, hq, lookupAssoc, hf, ih]

/-! ### Document-operation lemmas -/

theorem docLookup_stripEmptyField (d : Doc) (f : String) (h : f ≠ "") :
    docLookup (stripEmptyField d) f = docLookup d f := by
  unfold stripEmptyField
  by_cases hk : docHasKey d ""
  · simp only [hk, if_true]
    rw [docLookup_filter d (fun s => decide (s ≠ "")) f]
    simp [h]
  · simp [hk]

theorem docHasKey_stripEmptyField (d : Doc) :
    docHasKey (stripEmptyField d) "" = false := by
  unfold stripEmptyField
  by_cases hk : docHasKey d ""
  · simp only [hk, if_true]
    rw [docHasKey_eq_isSome]
    rw [docLookup_filter d (fun s => decide (s ≠ "")) ""]
    simp
  · have hk2 : docHasKey d "" = false := by simpa using hk
    simp [hk2]

theorem stripEmptyField_of_not_hasKey (d : Doc) (h : docHasKey d "" = false) :
    stripEmptyField d = d := by
  simp [stripEmptyField, h]

theorem docLookup_docConcat (old new : Doc) (f : String) :
    docLookup (docConcat old new) f =
      match docLookup new f with
      | some v => some v
      | none => docLookup old f := by
  have hfil := docLookup_filter old (fun s => !(docHasKey new s)) f
  simp only [docLookup] at hfil ⊢
  unfold docConcat
  rw [lookupAssoc_append, hfil]
  cases hnew : lookupAssoc new f with
  | some v =>
    have hk : docHasKey new f = true := by
      rw [docHasKey_eq_isSome]
      simp [docLookup, hnew]
    simp [hk, hnew]
  | none =>
    have hk : docHasKey new f = false := by
      rw [docHasKey_eq_isSome]
      simp [docLookup, hnew]
    cases lookupAssoc old f <;> simp [hk, hnew]

theorem docLookup_jsonbSet_self (d : Doc) (f : String) (v : JVal) :
    docLookup (jsonbSet d f v) f = some v := by
  unfold jsonbSet
  by_cases h : docHasKey d f
  · simp only [h, if_true]
    rw [docHasKey_eq_isSome] at h
    cases hd : docLookup d f with
    | none => rw [hd] at h; simp at h
    | some d0 => exact lookupAssoc_setAssoc_self d f v d0 hd
  · have h2 : docHasKey d f = false := by simpa using h
    have hnone : lookupAssoc d f = none := by
      have hs := docHasKey_eq_isSome d f
      rw [h2] at hs
      cases hd : docLookup d f with
      | none => exact hd
      | some d0 => rw [hd] at hs; simp at hs
    simp only [h2, Bool.false_eq_true, if_false]
    show lookupAssoc (d ++ [(f, v)]) f = some v
    rw [lookupAssoc_append, hnone]
    simp [lookupAssoc]

theorem docLookup_jsonbSet_ne (d : Doc) (f g : String) (v : JVal) (h : g ≠ f) :
    docLookup (jsonbSet d f v) g = docLookup d g := by
  unfold jsonbSet
  by_cases hk : docHasKey d f
  · simp only [hk, if_true]
    exact lookupAssoc_setAssoc_ne d f g v h
  · simp only [hk, if_false]
    show lookupAssoc (d ++ [(f, v)]) g = docLookup d g
    rw [lookupAssoc_append]
    cases hd : docLookup d g with
    | some v0 => simp [docLookup] at hd; simp [hd]
    | none => simp [docLookup] at hd; simp [hd, lookupAssoc, Ne.symm h]

/-! ### Ordinality-sort lemmas -/

theorem insertByTag_tagFrom {α : Type} (i : Nat) (a : α) (l : List α) :
    insertByTag (i, a) (tagFrom (i + 1) l) = (i, a) :: tagFrom (i + 1) l := by
  cases l with
  | nil => simp [tagFrom, insertByTag]
  | cons b rest => simp [tagFrom, insertByTag, Nat.le_succ]

theorem sortByTag_tagFrom {α : Type} (l : List α) (i : Nat) :
    sortByTag (tagFrom i l) = tagFrom i l := by
  induction l generalizing i with
  | nil => simp [tagFrom, sortByTag]
  | cons a rest ih =>
    simp only [tagFrom, sortByTag, ih]
    exact insertByTag_tagFrom i a rest

theorem tagFrom_map {α β : Type} (g : α → β) (l : List α) (i : Nat) :
    (tagFrom i l).map (fun p => (p.1, g p.2)) = tagFrom i (l.map g) := by
  induction l generalizing i with
  | nil => simp [tagFrom]
  | cons a rest ih => simp [tagFrom, ih]

theorem map_snd_tagFrom {α : Type} (l : List α) (i : Nat) :
    (tagFrom i l).map (fun p => p.2) = l := by
  induction l generalizing i with
  | nil => simp [tagFrom]
  | cons a rest ih => simp [tagFrom, ih]

theorem lookupAssoc_append_entry_ne {α : Type} (l : List (String × α)) (k k2 : String)
    (v : α) (h : k2 ≠ k) : lookupAssoc (l ++ [(k, v)]) k2 = lookupAssoc l k2 := by
  rw [lookupAssoc_append]
  cases lookupAssoc l k2 <;> simp [lookupAssoc, Ne.symm h, h]

theorem lookupAssoc_append_entry_self {α : Type} (l : List (String × α)) (k : String)
    (v : α) (h : lookupAssoc l k = none) : lookupAssoc (l ++ [(k, v)]) k = some v := by
  rw [lookupAssoc_append, h]
  simp [lookupAssoc]

/-! ### Registry lemmas -/

theorem ensureLegacyObjectType_ok (db : DB) (k : String) (h : regOk db k) :
    ∃ db2, ensureLegacyObjectType db k "hash" = .ok db2 ∧
      db2.hash = db.hash ∧
      lookupAssoc db2.live k = some "hash" ∧
      (∀ k2, lookupAssoc db.live k2 = some "hash" → lookupAssoc db2.live k2 = some "hash") ∧
      (∀ k2, regOk db k2 → regOk db2 k2) := by
  rcases h with h | h
  · refine ⟨{ db with live := (k, "hash") :: db.live }, ?_, rfl, ?_, ?_, ?_⟩
    · simp [ensureLegacyObjectType, h]
    · simp [lookupAssoc]
    · intro k2 hk2
      by_cases he : k = k2
      · subst he
        rw [h] at hk2
        cases hk2
      · simp only [lookupAssoc, he, if_false]
        exact hk2
    · intro k2 hk2
      by_cases he : k = k2
      · subst he
        right
        simp [lookupAssoc]
      · rcases hk2 with h2 | h2
        · left
          simp only [lookupAssoc, he, if_false]
          exact h2
        · right
          simp only [lookupAssoc, he, if_false]
          exact h2
  · refine ⟨db, ?_, rfl, h, fun k2 hk2 => hk2, fun k2 hk2 => hk2⟩
    simp [ensureLegacyObjectType, h]

theorem ensureLegacyObjectsType_ok (keys : List String) (db : DB)
    (h : ∀ k ∈ keys, regOk db k) :
    ∃ db2, ensureLegacyObjectsType db keys "hash" = .ok db2 ∧
      db2.hash = db.hash ∧
      (∀ k ∈ keys, lookupAssoc db2.live k = some "hash") ∧
      (∀ k2, lookupAssoc db.live k2 = some "hash" → lookupAssoc db2.live k2 = some "hash") := by
  induction keys generalizing db with
  | nil => exact ⟨db, rfl, rfl, by simp, fun k2 h2 => h2⟩
  | cons k rest ih =>
    obtain ⟨db1, he, hh, hk, hpres, hreg⟩ :=
      ensureLegacyObjectType_ok db k (h k (by simp))
    obtain ⟨db2, he2, hh2, hk2, hpres2⟩ :=
      ih db1 (fun k2 hk2 => hreg k2 (h k2 (by simp [hk2])))
    refine ⟨db2, ?_, by rw [hh2, hh], ?_, fun k2 h2 => hpres2 k2 (hpres k2 h2)⟩
    · simp [ensureLegacyObjectsType, he, he2]
    · intro k2 hmem
      rcases List.mem_cons.mp hmem with rfl | hmem2
      · exact hpres2 k2 hk
      · exact hk2 k2 hmem2

/-! ### Write-operation lemmas -/

theorem setObject_snd (db : DB) (key : String) (data : Doc) (hk : key ≠ "") :
    (setObject db key data).2 = stripEmptyField data := by
  unfold setObject
  simp only [hk, if_false]
  cases ensureLegacyObjectType db key "hash" <;> simp

theorem setObject_ok (db : DB) (key : String) (data : Doc) (hk : key ≠ "")
    (hr : regOk db key) :
    ∃ db2 d2, (setObject db key data).1 = .ok db2 ∧
      db2.live ≠ [] ∧
      lookupAssoc db2.live key = some "hash" ∧
      regOk db2 key ∧
      lookupAssoc db2.hash key = some d2 ∧
      (∀ f, f ≠ "" →
        docLookup d2 f =
          match docLookup data f with
          | some v => some v
          | none => docLookup ((lookupAssoc db.hash key).getD []) f) := by
  obtain ⟨db1, he, hh, hl, _, hreg⟩ := ensureLegacyObjectType_ok db key hr
  have hlive_ne : db1.live ≠ [] := by
    intro hnil
    rw [hnil] at hl
    simp [lookupAssoc] at hl
  cases hrow : lookupAssoc db.hash key with
  | none =>
    refine ⟨{ db1 with hash := db1.hash ++ [(key, stripEmptyField data)] },
            stripEmptyField data, ?_, hlive_ne, hl, hreg key hr, ?_, ?_⟩
    · unfold setObject
      simp [hk, he, hashUpsert, hh, hrow]
    · exact lookupAssoc_append_entry_self db1.hash key _ (by rw [hh]; exact hrow)
    · intro f hf
      rw [docLookup_stripEmptyField data f hf]
      cases docLookup data f <;> simp [docLookup, lookupAssoc]
  | some d0 =>
    refine ⟨{ db1 with hash := setAssoc db1.hash key (docConcat d0 (stripEmptyField data)) },
            docConcat d0 (stripEmptyField data), ?_, hlive_ne, hl, hreg key hr, ?_, ?_⟩
    · unfold setObject
      simp [hk, he, hashUpsert, hh, hrow]
    · exact lookupAssoc_setAssoc_self db1.hash key _ d0 (by rw [hh]; exact hrow)
    · intro f hf
      rw [docLookup_docConcat, docLookup_stripEmptyField data f hf]
      cases docLookup data f <;> simp

theorem incr_fresh (db : DB) (key field : String) (delta : Int) (hk : key ≠ "")
    (hl : lookupAssoc db.live key = none) (hh : lookupAssoc db.hash key = none) :
    incrObjectFieldBy db key field (some delta) =
      .ok ({ live := (key, "hash") :: db.live,
             hash := db.hash ++ [(key, [(field, .num delta)])] },
           some delta) := by
  unfold incrObjectFieldBy ensureLegacyObjectType
  simp [hk, hl, hh]

theorem incr_established (db : DB) (key field : String) (m delta : Int) (d : Doc)
    (hk : key ≠ "")
    (hl : lookupAssoc db.live key = some "hash")
    (hh : lookupAssoc db.hash key = some d)
    (hf : docLookup d field = some (.num m)) :
    incrObjectFieldBy db key field (some delta) =
      .ok ({ db with hash := setAssoc db.hash key (jsonbSet d field (.num (m + delta))) },
           some (m + delta)) := by
  unfold incrObjectFieldBy ensureLegacyObjectType
  simp [hk, hl, hh, fieldNumeric, hf]

theorem prevNumeric_hash_eq (db1 db : DB) (k f : String) (h : db1.hash = db.hash) :
    prevNumeric db1 k f = prevNumeric db k f := by
  unfold prevNumeric
  rw [h]

theorem prevBase_hash_eq (db1 db : DB) (k f : String) (h : db1.hash = db.hash) :
    prevBase db1 k f = prevBase db k f := by
  unfold prevBase
  rw [prevNumeric_hash_eq db1 db k f h]

theorem incrMultiRows_ok (field : String) (delta : Int) :
    ∀ (keys : List String) (db : DB) (affected : List String),
      keys.Nodup →
      (∀ k ∈ keys, k ∉ affected) →
      (∀ k ∈ keys, ∃ m, prevNumeric db k field = .ok m) →
      ∃ db2, incrMultiRows db keys field delta affected =
          .ok (db2, keys.map (fun k => prevBase db k field + delta)) ∧
        db2.live = db.live ∧
        (∀ k2, k2 ∉ keys → lookupAssoc db2.hash k2 = lookupAssoc db.hash k2) := by
  intro keys
  induction keys with
  | nil =>
    intro db affected _ _ _
    exact ⟨db, rfl, rfl, fun _ _ => rfl⟩
  | cons k rest ih =>
    intro db affected hnd haff hnum
    have hknd : k ∉ rest := (List.nodup_cons.mp hnd).1
    have hrest_nd : rest.Nodup := (List.nodup_cons.mp hnd).2
    have hkaff : k ∉ affected := haff k (by simp)
    cases hrow : lookupAssoc db.hash k with
    | none =>
      have hbase : prevBase db k field = 0 := by
        unfold prevBase prevNumeric
        rw [hrow]
      set db2 : DB := { db with hash := db.hash ++ [(k, [(field, .num delta)])] } with hdb2
      have hpres2 : ∀ k2, k2 ≠ k → lookupAssoc db2.hash k2 = lookupAssoc db.hash k2 := by
        intro k2 hne
        exact lookupAssoc_append_entry_ne db.hash k k2 _ hne
      have hprev2 : ∀ k2, k2 ≠ k → prevNumeric db2 k2 field = prevNumeric db k2 field := by
        intro k2 hne
        unfold prevNumeric
        rw [hpres2 k2 hne]
      obtain ⟨db3, hrun, hlive3, hpres3⟩ :=
        ih db2 (k :: affected) hrest_nd
          (by
            intro k2 hk2
            simp only [List.mem_cons, not_or]
            exact ⟨fun he => hknd (he ▸ hk2), haff k2 (by simp [hk2])⟩)
          (by
            intro k2 hk2
            rw [hprev2 k2 (fun he => hknd (he ▸ hk2))]
            exact hnum k2 (by simp [hk2]))
      refine ⟨db3, ?_, hlive3, ?_⟩
      · show incrMultiRows db (k :: rest) field delta affected = _
        unfold incrMultiRows
        simp only [hkaff, if_false, hrow]
        rw [← hdb2, hrun]
        have hmap : rest.map (fun k2 => prevBase db2 k2 field + delta) =
            rest.map (fun k2 => prevBase db k2 field + delta) := by
          apply List.map_congr_left
          intro k2 hk2
          rw [prevBase, prevBase, hprev2 k2 (fun he => hknd (he ▸ hk2))]
        rw [hmap]
        simp [hbase]
      · intro k2 hk2
        have hne : k2 ≠ k := fun he => hk2 (by simp [he])
        rw [hpres3 k2 (fun hm => hk2 (by simp [hm])), hpres2 k2 hne]
    | some d =>
      obtain ⟨m, hm⟩ := hnum k (by simp)
      have hfn : fieldNumeric d field = .ok m := by
        unfold prevNumeric at hm
        rw [hrow] at hm
        exact hm
      have hbase : prevBase db k field = m.getD 0 := by
        unfold prevBase
        rw [hm]
        cases m <;> rfl
      set db2 : DB :=
        { db with hash := setAssoc db.hash k (jsonbSet d field (.num (m.getD 0 + delta))) }
        with hdb2
      have hpres2 : ∀ k2, k2 ≠ k → lookupAssoc db2.hash k2 = lookupAssoc db.hash k2 := by
        intro k2 hne
        exact lookupAssoc_setAssoc_ne db.hash k k2 _ hne
      have hprev2 : ∀ k2, k2 ≠ k → prevNumeric db2 k2 field = prevNumeric db k2 field := by
        intro k2 hne
        unfold prevNumeric
        rw [hpres2 k2 hne]
      obtain ⟨db3, hrun, hlive3, hpres3⟩ :=
        ih db2 (k :: affected) hrest_nd
          (by
            intro k2 hk2
            simp only [List.mem_cons, not_or]
            exact ⟨fun he => hknd (he ▸ hk2), haff k2 (by simp [hk2])⟩)
          (by
            intro k2 hk2
            rw [hprev2 k2 (fun he => hknd (he ▸ hk2))]
            exact hnum k2 (by simp [hk2]))
      refine ⟨db3, ?_, hlive3, ?_⟩
      · show incrMultiRows db (k :: rest) field delta affected = _
        unfold incrMultiRows
        simp only [hkaff, if_false, hrow, hfn]
        rw [← hdb2, hrun]
        have hmap : rest.map (fun k2 => prevBase db2 k2 field + delta) =
            rest.map (fun k2 => prevBase db k2 field + delta) := by
          apply List.map_congr_left
          intro k2 hk2
          rw [prevBase, prevBase, hprev2 k2 (fun he => hknd (he ▸ hk2))]
        rw [hmap]
        simp [hbase]
      · intro k2 hk2
        have hne : k2 ≠ k := fun he => hk2 (by simp [he])
        rw [hpres3 k2 (fun hm2 => hk2 (by simp [hm2])), hpres2 k2 hne]

theorem docLookup_aggFields (fields : List String) (d : Doc) (f : String) (hf : f ∈ fields) :
    docLookup (aggFields fields d) f = some ((docLookup d f).getD JVal.null) := by
  induction fields with
  | nil => cases hf
  | cons g rest ih =>
    by_cases he : g = f
    · subst he
      simp only [aggFields, List.map_cons]
      show lookupAssoc _ g = _
      simp only [lookupAssoc, if_pos rfl]
      cases docLookup d g <;> rfl
    · have hf2 : f ∈ rest := by
        rcases List.mem_cons.mp hf with h1 | h1
        · exact absurd h1.symm he
        · exact h1
      simp only [aggFields, List.map_cons]
      show lookupAssoc _ f = _
      simp only [lookupAssoc, he, if_false]
      exact ih hf2

theorem isField_bool_eq (d : Doc) (f : String) :
    (docHasKey d f && !(jvalTextIsNull (docLookup d f))) = presentAndNotNull d f := by
  rw [docHasKey_eq_isSome]
  unfold presentAndNotNull jvalTextIsNull
  cases h : docLookup d f with
  | none => simp
  | some v => cases v <;> simp

/-! ### Claim theorems -/

/-- C2: `isObjectField(key, field)` is true exactly when the field is
present in the key's hash document with a non-null value, and false for a
missing key, a missing field, or a field holding JSON `null`;
`isObjectFields(key, fields)` yields one such boolean per requested
field, in the order of `fields`, and yields all-false (rather than
failing) when the key has no document. -/
theorem c2_isObjectField_spec (db : DB) (key field : String) (fields : List String)
    (hk : key ≠ "") :
    (getObject db key = none →
      isObjectField db key field = some false ∧
      isObjectFields db key fields = some (fields.map (fun _ => false))) ∧
    (∀ d, getObject db key = some d →
      isObjectField db key field = some (presentAndNotNull d field) ∧
      isObjectFields db key fields = some (fields.map (fun f => presentAndNotNull d f))) := by
  constructor
  · intro hnone
    rw [getObject, if_neg hk] at hnone
    constructor
    · rw [isObjectField, if_neg hk, hnone]
    · rw [isObjectFields, if_neg hk, getObjectFields, if_neg hk, hnone]
      refine congrArg some (List.map_congr_left ?_)
      intro f hf
      rw [docLookup_aggFields fields [] f hf]
      simp [docLookup, lookupAssoc]
  · intro d hd
    rw [getObject, if_neg hk] at hd
    constructor
    · rw [isObjectField, if_neg hk, hd]
      show some (docHasKey d field && !(jvalTextIsNull (docLookup d field))) = _
      rw [isField_bool_eq]
    · rw [isObjectFields, if_neg hk, getObjectFields, if_neg hk, hd]
      by_cases hfe : fields.isEmpty
      · have : fields = [] := List.isEmpty_iff.mp hfe
        subst this
        simp
      · simp only [hfe, if_false]
        refine congrArg some (List.map_congr_left ?_)
        intro f hf
        have hagg := docLookup_aggFields fields d f hf
        have hkey : docHasKey (aggFields fields d) f = true := by
          rw [docHasKey_eq_isSome, hagg]
          rfl
        rw [hkey, hagg]
        unfold presentAndNotNull
        cases hv : docLookup d f with
        | none => simp
        | some v => cases v <;> simp

/-- Witness for C2 at a concrete store: key `k` holds `f ↦ null`,
`g ↦ 2`; `isObjectField` is false for `f` (explicit null), true for `g`,
and `isObjectFields` for a key without a document is all-false. -/
theorem c2_isObjectField_spec_witness :
    ("k" : String) ≠ "" ∧
    isObjectField (DB.mk [("k", "hash")] [("k", [("f", JVal.null), ("g", JVal.num 2)])])
        "k" "f" = some false ∧
    isObjectField (DB.mk [("k", "hash")] [("k", [("f", JVal.null), ("g", JVal.num 2)])])
        "k" "g" = some true ∧
    isObjectFields (DB.mk [("k", "hash")] [("k", [("f", JVal.null), ("g", JVal.num 2)])])
        "missing" ["f", "g"] = some [false, false] := by
  refine ⟨by decide, ?_, ?_, ?_⟩
  · have h := (c2_isObjectField_spec
      (DB.mk [("k", "hash")] [("k", [("f", JVal.null), ("g", JVal.num 2)])])
      "k" "f" [] (by decide)).2 [("f", JVal.null), ("g", JVal.num 2)] (by decide)
    rw [h.1]
    decide
  · have h := (c2_isObjectField_spec
      (DB.mk [("k", "hash")] [("k", [("f", JVal.null), ("g", JVal.num 2)])])
      "k" "g" [] (by decide)).2 [("f", JVal.null), ("g", JVal.num 2)] (by decide)
    rw [h.1]
    decide
  · have h := (c2_isObjectField_spec
      (DB.mk [("k", "hash")] [("k", [("f", JVal.null), ("g", JVal.num 2)])])
      "missing" "f" ["f", "g"] (by decide)).1 (by decide)
    rw [h.2]
    decide

/-- C4: for every non-empty list of keys, `getObjects(keys)` returns one
result per input element, positionally matching the input order — the
registry-joined document of that key, or `null` when the key is missing
or not registered as a hash — with duplicates each producing their own
result and no reordering or deduplication. -/
theorem c4_getObjects_order (db : DB) (keys : List String) (h : keys ≠ []) :
    getObjects db keys = keys.map (fun k => liveHashDoc db k) ∧
    (∀ k, k ≠ "" → liveHashDoc db k = getObject db k) ∧
    (getObjects db keys).length = keys.length := by
  have hmain : getObjects db keys = keys.map (fun k => liveHashDoc db k) := by
    unfold getObjects
    rw [tagFrom_map (fun k => liveHashDoc db k) keys 1, sortByTag_tagFrom,
      map_snd_tagFrom]
  refine ⟨hmain, ?_, by rw [hmain]; simp⟩
  intro k hk
  rw [getObject, if_neg hk]

/-- Witness for C4: `getObjects([k2, k1, k2])` against a store holding
only `k1` returns `[null, doc(k1), null]`, repeating the duplicate. -/
theorem c4_getObjects_order_witness :
    (["k2", "k1", "k2"] : List String) ≠ [] ∧
    getObjects (DB.mk [("k1", "hash")] [("k1", [("a", JVal.num 1)])]) ["k2", "k1", "k2"] =
      [none, some [("a", JVal.num 1)], none] := by
  refine ⟨by decide, ?_⟩
  have h := (c4_getObjects_order
    (DB.mk [("k1", "hash")] [("k1", [("a", JVal.num 1)])]) ["k2", "k1", "k2"]
    (by decide)).1
  rw [h]
  decide

/-- C8: `getObjectKeys(key)` returns the document's field names; the
empty sequence when the key is supplied but has no hash document; and the
distinguished unset value — never an empty sequence — exactly when the
key argument itself is empty, so the two cases are distinguishable. -/
theorem c8_getObjectKeys_spec (db : DB) (key : String) (hk : key ≠ "") :
    (liveHashDoc db key = none → getObjectKeys db key = some []) ∧
    (∀ d, liveHashDoc db key = some d →
      getObjectKeys db key = some (d.map (fun p => p.1))) ∧
    getObjectKeys db key ≠ none ∧
    (∀ db2 : DB, getObjectKeys db2 "" = none) := by
  refine ⟨?_, ?_, ?_, ?_⟩
  · intro hnone
    rw [getObjectKeys, if_neg hk, hnone]
  · intro d hd
    rw [getObjectKeys, if_neg hk, hd]
  · rw [getObjectKeys, if_neg hk]
    cases liveHashDoc db key <;> simp
  · intro db2
    rw [getObjectKeys, if_pos rfl]

/-- Witness for C8: a supplied key with no document gives `[]`, while the
empty key argument gives the unset sentinel. -/
theorem c8_getObjectKeys_spec_witness :
    ("k" : String) ≠ "" ∧
    getObjectKeys (DB.mk [] []) "k" = some [] ∧
    getObjectKeys (DB.mk [] []) "" = none := by
  have h := c8_getObjectKeys_spec (DB.mk [] []) "k" (by decide)
  exact ⟨by decide, h.1 (by decide), h.2.2.2 (DB.mk [] [])⟩

/-- C10: `setObject` mutates its caller's input object: whenever the
supplied mapping contains a field named `""`, that property is deleted
from the caller's object in place before persisting, so after the call
the caller's object no longer has the empty-string key (all other fields
untouched); a mapping without an empty-string field is left unmodified. -/
theorem c10_setObject_mutates_input (db : DB) (key : String) (data : Doc)
    (hk : key ≠ "") :
    (docHasKey data "" = true →
      docHasKey (setObject db key data).2 "" = false ∧
      ∀ f, f ≠ "" → docLookup (setObject db key data).2 f = docLookup data f) ∧
    (docHasKey data "" = false → (setObject db key data).2 = data) := by
  constructor
  · intro _
    rw [setObject_snd db key data hk]
    exact ⟨docHasKey_stripEmptyField data, fun f hf => docLookup_stripEmptyField data f hf⟩
  · intro h
    rw [setObject_snd db key data hk, stripEmptyField_of_not_hasKey data h]

/-- Witness for C10: calling `setObject` with `join empty-string field, a ↦ 2`
leaves the caller's object without the empty-string field but with `a`
intact; a mapping without the empty-string field comes back unchanged. -/
theorem c10_setObject_mutates_input_witness :
    docHasKey ((setObject (DB.mk [] []) "k" [("", JVal.num 1), ("a", JVal.num 2)]).2) "" = false ∧
    docLookup ((setObject (DB.mk [] []) "k" [("", JVal.num 1), ("a", JVal.num 2)]).2) "a" =
      some (JVal.num 2) ∧
    (setObject (DB.mk [] []) "k" [("a", JVal.num 2)]).2 = [("a", JVal.num 2)] := by
  have h := c10_setObject_mutates_input (DB.mk [] []) "k"
    [("", JVal.num 1), ("a", JVal.num 2)] (by decide)
  have h2 := c10_setObject_mutates_input (DB.mk [] []) "k" [("a", JVal.num 2)] (by decide)
  refine ⟨(h.1 (by decide)).1, ?_, h2.2 (by decide)⟩
  rw [(h.1 (by decide)).2 "a" (by decide)]
  decide

theorem map_fst_aggFields (fields : List String) (d : Doc) :
    (aggFields fields d).map (fun p => p.1) = fields := by
  induction fields with
  | nil => rfl
  | cons g rest ih =>
    simp only [aggFields, List.map_cons] at ih ⊢
    rw [ih]

/-- C3: `setObject` shallow-merges: after `setObject(k, d1)` then
`setObject(k, d2)`, every (valid, non-empty-named) field of `d2` holds
its `d2` value in the stored document, and every field present after the
first call but not named in `d2` keeps its previous value. -/
theorem c3_setObject_merge (db : DB) (key : String) (d1 d2 : Doc) (hk : key ≠ "")
    (hr : regOk db key) :
    ∃ dbA dbB docA docB,
      (setObject db key d1).1 = .ok dbA ∧
      (setObject dbA key d2).1 = .ok dbB ∧
      lookupAssoc dbA.hash key = some docA ∧
      lookupAssoc dbB.hash key = some docB ∧
      (∀ f v, f ≠ "" → docLookup d2 f = some v → docLookup docB f = some v) ∧
      (∀ f, f ≠ "" → docLookup d2 f = none → docLookup docB f = docLookup docA f) := by
  obtain ⟨dbA, docA, hA, _, _, hrA, hrowA, _⟩ := setObject_ok db key d1 hk hr
  obtain ⟨dbB, docB, hB, _, _, _, hrowB, hfB⟩ := setObject_ok dbA key d2 hk hrA
  refine ⟨dbA, dbB, docA, docB, hA, hB, hrowA, hrowB, ?_, ?_⟩
  · intro f v hf hv
    have h := hfB f hf
    rw [hv] at h
    exact h
  · intro f hf hnone
    have h := hfB f hf
    rw [hnone, hrowA] at h
    exact h

/-- Witness for C3: the merge-law example — `setObject(k, a ↦ 1)` then
`setObject(k, b ↦ 2)` yields a document holding both `a ↦ 1` and
`b ↦ 2`. -/
theorem c3_setObject_merge_witness :
    ("k" : String) ≠ "" ∧ regOk (DB.mk [] []) "k" ∧
    ∃ dbA dbB docA docB,
      (setObject (DB.mk [] []) "k" [("a", JVal.num 1)]).1 = .ok dbA ∧
      (setObject dbA "k" [("b", JVal.num 2)]).1 = .ok dbB ∧
      lookupAssoc dbA.hash "k" = some docA ∧
      lookupAssoc dbB.hash "k" = some docB ∧
      docLookup docB "a" = some (JVal.num 1) ∧
      docLookup docB "b" = some (JVal.num 2) := by
  refine ⟨by decide, Or.inl rfl, ?_⟩
  obtain ⟨dbA, dbB, docA, docB, h1, h2, h3, h4, h5, h6⟩ :=
    c3_setObject_merge (DB.mk [] []) "k" [("a", JVal.num 1)] [("b", JVal.num 2)]
      (by decide) (Or.inl rfl)
  have hA : dbA = DB.mk [("k", "hash")] [("k", [("a", JVal.num 1)])] := by
    have hc : (setObject (DB.mk [] []) "k" [("a", JVal.num 1)]).1 =
        .ok (DB.mk [("k", "hash")] [("k", [("a", JVal.num 1)])]) := rfl
    rw [h1] at hc
    exact Except.ok.inj hc
  subst hA
  have hdocA : docA = [("a", JVal.num 1)] := by
    have h3' := h3
    simp only [lookupAssoc] at h3'
    simp at h3'
    exact h3'.symm
  refine ⟨DB.mk [("k", "hash")] [("k", [("a", JVal.num 1)])], dbB, docA, docB,
    h1, h2, h3, h4, ?_, h5 "b" (JVal.num 2) (by decide) (by decide)⟩
  rw [h6 "a" (by decide) (by decide), hdocA]
  decide

/-- C5 (amended): for a non-empty key and a non-empty requested-fields
list, `getObjectFields` returns a mapping keyed exactly by the requested
field names in order, with `null` for every requested field absent from
the document; when such a key has no hash document it returns every
requested field mapped to `null`, while `getObject` returns `null` for
the same key. -/
theorem c5_getObjectFields_spec (db : DB) (key : String) (fields : List String)
    (hk : key ≠ "") (hf : fields ≠ []) :
    (∀ d, liveHashDoc db key = some d →
      getObjectFields db key fields =
        some (fields.map (fun f => (f, (docLookup d f).getD JVal.null)))) ∧
    (liveHashDoc db key = none →
      getObject db key = none ∧
      getObjectFields db key fields =
        some (fields.map (fun f => (f, JVal.null)))) ∧
    (∀ m, getObjectFields db key fields = some m →
      m.map (fun p => p.1) = fields) := by
  have hfe : fields.isEmpty = false := by
    cases fields with
    | nil => exact absurd rfl hf
    | cons a l => rfl
  refine ⟨?_, ?_, ?_⟩
  · intro d hd
    rw [getObjectFields, if_neg hk, hd]
    show (if fields.isEmpty then none else some (aggFields fields d)) = _
    simp only [hfe, Bool.false_eq_true, if_false]
    refine congrArg some (List.map_congr_left ?_)
    intro f _
    show (f, _) = (f, (docLookup d f).getD JVal.null)
    cases docLookup d f <;> rfl
  · intro hd
    constructor
    · rw [getObject, if_neg hk, hd]
    · rw [getObjectFields, if_neg hk, hd]
      show some (aggFields fields []) = some (fields.map (fun f => (f, JVal.null)))
      refine congrArg some (List.map_congr_left ?_)
      intro f _
      rfl
  · intro m hm
    rw [getObjectFields, if_neg hk] at hm
    cases hd : liveHashDoc db key with
    | some d =>
      rw [hd] at hm
      simp only [hfe, Bool.false_eq_true, if_false] at hm
      have : aggFields fields d = m := Option.some.inj hm
      rw [← this, map_fst_aggFields]
    | none =>
      rw [hd] at hm
      have : aggFields fields [] = m := Option.some.inj hm
      rw [← this, map_fst_aggFields]

/-- Counterexample for C5: with an existing document and an empty
requested-fields list, `getObjectFields` returns `null` (SQL
`jsonb_object_agg` over zero rows), not a mapping; and with an empty key
argument it also returns `null` rather than an all-null mapping. -/
theorem c5_getObjectFields_counterexample :
    getObjectFields (DB.mk [("k", "hash")] [("k", [("f", JVal.num 1)])]) "k" [] = none ∧
    getObjectFields (DB.mk [("k", "hash")] [("k", [("f", JVal.num 1)])]) "" ["f"] = none := by
  exact ⟨rfl, rfl⟩

/-- Witness for C5: requested fields `[f, g]` against a document holding
only `f` give `f ↦ 1, g ↦ null`; a never-written key gives
`getObject = null` but `getObjectFields = (f ↦ null)`. -/
theorem c5_getObjectFields_spec_witness :
    ("k" : String) ≠ "" ∧ (["f", "g"] : List String) ≠ [] ∧
    getObjectFields (DB.mk [("k", "hash")] [("k", [("f", JVal.num 1)])]) "k" ["f", "g"] =
      some [("f", JVal.num 1), ("g", JVal.null)] ∧
    getObject (DB.mk [] []) "nope" = none ∧
    getObjectFields (DB.mk [] []) "nope" ["f"] = some [("f", JVal.null)] := by
  refine ⟨by decide, by decide, ?_, ?_, ?_⟩
  · have h := (c5_getObjectFields_spec
      (DB.mk [("k", "hash")] [("k", [("f", JVal.num 1)])]) "k" ["f", "g"]
      (by decide) (by decide)).1 [("f", JVal.num 1)] (by decide)
    rw [h]
    decide
  · exact ((c5_getObjectFields_spec (DB.mk [] []) "nope" ["f"]
      (by decide) (by decide)).2.1 (by decide)).1
  · have h := ((c5_getObjectFields_spec (DB.mk [] []) "nope" ["f"]
      (by decide) (by decide)).2.1 (by decide)).2
    rw [h]
    decide

/-- Counterexample for C6: `setObjectField` guards only on an empty
field name, not on an empty key — called with the empty key and a
non-empty field it registers the empty key and writes a row, rather than
performing no write. -/
theorem c6_guards_counterexample :
    setObjectField (DB.mk [] []) "" "f" (JVal.num 1) =
      .ok (DB.mk [("", "hash")] [("", [("f", JVal.num 1)])]) ∧
    DB.mk [("", "hash")] [("", [("f", JVal.num 1)])] ≠ DB.mk ([] : List (String × String)) [] := by
  exact ⟨rfl, by decide⟩

/-- C6 (amended): the actual argument guards — `setObject` is a no-op for
an empty key; `incrObjectFieldBy` is a no-op returning `null` for an
empty (scalar) key or a non-numeric delta; `setObjectField` is a no-op
for an empty field name (but not for an empty key); `deleteObjectFields`
is a no-op for an empty key or an empty fields list.  Each no-op returns
its default value and leaves the store unchanged. -/
theorem c6_guards_spec (db : DB) (key field : String) (v : JVal) (data : Doc)
    (delta : Int) (fields : List String) :
    setObject db "" data = (.ok db, data) ∧
    incrObjectFieldBy db "" field (some delta) = .ok (db, none) ∧
    incrObjectFieldBy db key field none = .ok (db, none) ∧
    setObjectField db key "" v = .ok db ∧
    deleteObjectFields db "" fields = db ∧
    deleteObjectFields db key [] = db := by
  refine ⟨rfl, by simp [incrObjectFieldBy], rfl, rfl, by simp [deleteObjectFields],
    by simp [deleteObjectFields]⟩

/-- C7: `deleteObjectFields(key, fields)` removes exactly the named
fields from the key's document and touches nothing else (registration
intact); when the removed field was the only one, the document becomes
the empty object — not deleted, not null — so `getObjectKeys` gives `[]`
and `getObject` gives the empty mapping. -/
theorem c7_deleteObjectFields_spec (db : DB) (key f : String) (v : JVal)
    (fields : List String) (hk : key ≠ "") (hf : fields ≠ []) :
    (deleteObjectFields db key fields).live = db.live ∧
    (∀ d, lookupAssoc db.hash key = some d →
      ∃ d2, lookupAssoc (deleteObjectFields db key fields).hash key = some d2 ∧
        ∀ g, docLookup d2 g = if g ∈ fields then none else docLookup d g) ∧
    (lookupAssoc db.live key = some "hash" →
      lookupAssoc db.hash key = some [(f, v)] →
      getObjectKeys (deleteObjectFields db key [f]) key = some [] ∧
      getObject (deleteObjectFields db key [f]) key = some []) := by
  have hcond : ¬(key = "" ∨ fields = []) := by simp [hk, hf]
  refine ⟨?_, ?_, ?_⟩
  · cases hrow : lookupAssoc db.hash key <;>
      simp [deleteObjectFields, hcond, hrow]
  · intro d hd
    refine ⟨d.filter (fun p => decide (p.1 ∉ fields)), ?_, ?_⟩
    · have : deleteObjectFields db key fields =
          { db with hash := setAssoc db.hash key (d.filter (fun p => decide (p.1 ∉ fields))) } := by
        simp [deleteObjectFields, hcond, hd]
      rw [this]
      exact lookupAssoc_setAssoc_self db.hash key _ d hd
    · intro g
      have := docLookup_filter d (fun s => decide (s ∉ fields)) g
      by_cases hg : g ∈ fields <;> simp [hg] at this ⊢ <;> rw [this]
  · intro hlive hrow
    have hcond2 : ¬(key = "" ∨ ([f] : List String) = []) := by simp [hk]
    have hfil : ([(f, v)] : Doc).filter (fun p => decide (p.1 ∉ ([f] : List String))) = [] := by
      simp
    have hdel : deleteObjectFields db key [f] = { db with hash := setAssoc db.hash key [] } := by
      simp [deleteObjectFields, hk, hrow, hfil]
    have hdoc : liveHashDoc { db with hash := setAssoc db.hash key [] } key = some [] := by
      unfold liveHashDoc
      show (match lookupAssoc db.live key with
            | some t => if t = "hash" then lookupAssoc (setAssoc db.hash key []) key else none
            | none => none) = some []
      rw [hlive]
      simp only [if_pos rfl]
      exact lookupAssoc_setAssoc_self db.hash key [] [(f, v)] hrow
    rw [hdel]
    constructor
    · rw [getObjectKeys, if_neg hk, hdoc]
      rfl
    · rw [getObject, if_neg hk, hdoc]

/-- Witness for C7: deleting the only field `f` of `k` leaves the empty
document — `getObjectKeys(k) = []` and `getObject(k)` the empty object. -/
theorem c7_deleteObjectFields_spec_witness :
    ("k" : String) ≠ "" ∧ (["f"] : List String) ≠ [] ∧
    getObjectKeys (deleteObjectFields (DB.mk [("k", "hash")] [("k", [("f", JVal.num 7)])])
        "k" ["f"]) "k" = some [] ∧
    getObject (deleteObjectFields (DB.mk [("k", "hash")] [("k", [("f", JVal.num 7)])])
        "k" ["f"]) "k" = some [] := by
  have h := (c7_deleteObjectFields_spec (DB.mk [("k", "hash")] [("k", [("f", JVal.num 7)])])
    "k" "f" (JVal.num 7) ["f"] (by decide) (by decide)).2.2 (by decide) (by decide)
  exact ⟨by decide, by decide, h.1, h.2⟩

/-- Counterexample for C1: called with an array containing the same key
twice, the single multi-key upsert fails with the `ON CONFLICT DO UPDATE
command cannot affect row a second time` error instead of returning a
value per key. -/
theorem c1_incr_multi_counterexample :
    incrObjectFieldByMulti (DB.mk [] []) ["k", "k"] "n" (some 5) =
      .error DBErr.cardinalityViolation := rfl

/-- C1 (amended): called with an array of **distinct** keys, a field and
a numeric delta, `incrObjectFieldBy` ensures the `hash` registration for
every key, performs the increment against every key in one statement,
and returns, in the input array's order, each key's previous numeric
field value (0 when absent) plus the delta. -/
theorem c1_incr_multi_spec (db : DB) (keys : List String) (field : String)
    (delta : Int) (h1 : keys.Nodup) (h2 : ∀ k ∈ keys, regOk db k)
    (h3 : ∀ k ∈ keys, ∃ m, prevNumeric db k field = .ok m) :
    ∃ db2, incrObjectFieldByMulti db keys field (some delta) =
        .ok (db2, some (keys.map (fun k => prevBase db k field + delta))) ∧
      ∀ k ∈ keys, lookupAssoc db2.live k = some "hash" := by
  obtain ⟨db1, he, hh, hreg, _⟩ := ensureLegacyObjectsType_ok keys db h2
  have h3' : ∀ k ∈ keys, ∃ m, prevNumeric db1 k field = .ok m := by
    intro k hkm
    rw [prevNumeric_hash_eq db1 db k field hh]
    exact h3 k hkm
  obtain ⟨db2, hrun, hlive, _⟩ :=
    incrMultiRows_ok field delta keys db1 [] h1 (by simp) h3'
  have hmap : keys.map (fun k => prevBase db1 k field + delta) =
      keys.map (fun k => prevBase db k field + delta) := by
    apply List.map_congr_left
    intro k _
    rw [prevBase_hash_eq db1 db k field hh]
  refine ⟨db2, ?_, ?_⟩
  · show (match ensureLegacyObjectsType db keys "hash" with
          | Except.error e => Except.error e
          | Except.ok dbx =>
            match incrMultiRows dbx keys field delta [] with
            | Except.error e => Except.error e
            | Except.ok (db3, vs) => Except.ok (db3, some vs)) = _
    rw [he]
    show (match incrMultiRows db1 keys field delta [] with
          | Except.error e => Except.error e
          | Except.ok (db3, vs) => Except.ok (db3, some vs)) = _
    rw [hrun]
    show Except.ok (db2, some (keys.map (fun k => prevBase db1 k field + delta))) = _
    rw [hmap]
  · intro k hkm
    rw [hlive]
    exact hreg k hkm

/-- Witness for C1: `incrObjectFieldBy([k1, k2], n, 5)` with `k1`
previously `0` and `k2` previously unset returns `[5, 5]` in that order
and leaves both keys registered as hashes. -/
theorem c1_incr_multi_spec_witness :
    (["k1", "k2"] : List String).Nodup ∧
    ∃ db2, incrObjectFieldByMulti (DB.mk [("k1", "hash")] [("k1", [("n", JVal.num 0)])])
        ["k1", "k2"] "n" (some 5) = .ok (db2, some [5, 5]) ∧
      ∀ k ∈ (["k1", "k2"] : List String), lookupAssoc db2.live k = some "hash" := by
  refine ⟨by decide, ?_⟩
  obtain ⟨db2, hrun, hlive⟩ := c1_incr_multi_spec
    (DB.mk [("k1", "hash")] [("k1", [("n", JVal.num 0)])]) ["k1", "k2"] "n" 5
    (by decide)
    (by
      intro k hkm
      simp only [List.mem_cons, List.not_mem_nil, or_false] at hkm
      rcases hkm with rfl | rfl
      · exact Or.inr (by decide)
      · exact Or.inl (by decide))
    (by
      intro k hkm
      simp only [List.mem_cons, List.not_mem_nil, or_false] at hkm
      rcases hkm with rfl | rfl
      · exact ⟨some 0, rfl⟩
      · exact ⟨none, rfl⟩)
  have hmap : (["k1", "k2"] : List String).map
      (fun k => prevBase (DB.mk [("k1", "hash")] [("k1", [("n", JVal.num 0)])]) k "n" + 5) =
      [5, 5] := by decide
  rw [hmap] at hrun
  exact ⟨db2, hrun, hlive⟩

/-- C9: each `incrObjectFieldBy` call is one atomic state transition —
the new value is computed inside the single upsert statement from the row
being written, with no separate read step — so any schedule of `N`
concurrent `incrObjectFieldBy(k, n, 1)` calls amounts to their sequential
composition, which, starting from an absent field, leaves the field's
numeric value equal to `N`. -/
theorem c9_incr_atomic (db : DB) (key field : String) (n : Nat) (hk : key ≠ "")
    (hl : lookupAssoc db.live key = none) (hh : lookupAssoc db.hash key = none) :
    ∃ db2, incrNTimes db key field n = .ok db2 ∧
      prevBase db2 key field = (n : Int) ∧
      (1 ≤ n → ∃ d, lookupAssoc db2.hash key = some d ∧
        docLookup d field = some (.num (n : Int))) := by
  have main : ∀ m : Nat, ∃ dbm, incrNTimes db key field m = .ok dbm ∧
      ((m = 0 ∧ dbm = db) ∨
        (lookupAssoc dbm.live key = some "hash" ∧
          ∃ d, lookupAssoc dbm.hash key = some d ∧
            docLookup d field = some (.num (m : Int)))) := by
    intro m
    induction m with
    | zero => exact ⟨db, rfl, Or.inl ⟨rfl, rfl⟩⟩
    | succ m ih =>
      obtain ⟨dbm, he, hinv⟩ := ih
      rcases hinv with ⟨hm0, hdb⟩ | ⟨hlive2, d, hd, hf⟩
      · rw [hdb] at he
        have hstep := incr_fresh db key field 1 hk hl hh
        refine ⟨{ live := (key, "hash") :: db.live,
                  hash := db.hash ++ [(key, [(field, .num 1)])] }, ?_, Or.inr ⟨?_, ?_⟩⟩
        · show (match incrNTimes db key field m with
                | Except.error e => Except.error e
                | Except.ok dbx =>
                  match incrObjectFieldBy dbx key field (some 1) with
                  | Except.error e => Except.error e
                  | Except.ok (db3, _) => Except.ok db3) = _
          rw [he]
          show (match incrObjectFieldBy db key field (some 1) with
                | Except.error e => Except.error e
                | Except.ok (db3, _) => Except.ok db3) = _
          rw [hstep]
        · simp [lookupAssoc]
        · refine ⟨[(field, .num 1)], lookupAssoc_append_entry_self db.hash key _ hh, ?_⟩
          subst hm0
          simp [docLookup, lookupAssoc]
      · have hstep := incr_established dbm key field (m : Int) 1 d hk hlive2 hd hf
        refine ⟨{ dbm with
                  hash := setAssoc dbm.hash key (jsonbSet d field (.num ((m : Int) + 1))) },
                ?_, Or.inr ⟨hlive2, jsonbSet d field (.num ((m : Int) + 1)),
                  lookupAssoc_setAssoc_self dbm.hash key _ d hd, ?_⟩⟩
        · show (match incrNTimes db key field m with
                | Except.error e => Except.error e
                | Except.ok dbx =>
                  match incrObjectFieldBy dbx key field (some 1) with
                  | Except.error e => Except.error e
                  | Except.ok (db3, _) => Except.ok db3) = _
          rw [he]
          show (match incrObjectFieldBy dbm key field (some 1) with
                | Except.error e => Except.error e
                | Except.ok (db3, _) => Except.ok db3) = _
          rw [hstep]
        · rw [docLookup_jsonbSet_self]
          norm_cast
  obtain ⟨dbn, he, hinv⟩ := main n
  rcases hinv with ⟨hn0, hdb⟩ | ⟨_, d, hd, hf⟩
  · subst hn0
    rw [hdb] at he
    refine ⟨db, he, ?_, fun h => absurd h (by norm_num)⟩
    unfold prevBase prevNumeric
    rw [hh]
    rfl
  · refine ⟨dbn, he, ?_, fun _ => ⟨d, hd, hf⟩⟩
    have hfn : fieldNumeric d field = .ok (some (n : Int)) := by
      unfold fieldNumeric
      rw [hf]
    unfold prevBase prevNumeric
    rw [hd]
    show (match fieldNumeric d field with
          | Except.ok (some m) => m
          | _ => 0) = (n : Int)
    rw [hfn]

/-- Witness for C9: three unit increments on a fresh key leave the field
holding the number 3. -/
theorem c9_incr_atomic_witness :
    ("k" : String) ≠ "" ∧
    ∃ db2, incrNTimes (DB.mk [] []) "k" "n" 3 = .ok db2 ∧
      prevBase db2 "k" "n" = 3 ∧
      (1 ≤ 3 → ∃ d, lookupAssoc db2.hash "k" = some d ∧
        docLookup d "n" = some (JVal.num 3)) := by
  refine ⟨by decide, ?_⟩
  obtain ⟨db2, h1, h2, h3⟩ := c9_incr_atomic (DB.mk [] []) "k" "n" 3 (by decide) rfl rfl
  exact ⟨db2, h1, by simpa using h2, by simpa using h3⟩

end PgHash
